import Mathlib

/-!
Shallow embedding of `src/horreum-to-postgresql.py` (the Horreum → PostgreSQL
data mirror) and proofs about its core pipeline.

The script has four relevant pieces, all methods of `Worker`:

* `_horreum_datasets` (lines 148–195): a generator that pages through
  `GET /api/dataset/list/{testId}`, yielding dataset dicts one at a time,
  stopping when the running count of yielded items reaches `count`, or when a
  fetched page is empty; a non-success HTTP status raises via
  `raise_for_status()` before the page body is decoded.
* `_horreum_labelvalues` (lines 197–215): fetches
  `GET /api/dataset/{id}/labelValues`, raises on non-success status, and
  builds a dict `{i["name"]: i["value"]}` (last write wins on duplicates).
* `_db_insert` (lines 115–146): one batched INSERT with
  `ON CONFLICT (horreum_testid, horreum_runid, horreum_datasetid) DO NOTHING`,
  followed by exactly one `conn.commit()`.
* `upload` (lines 217–248): connects, ensures the schema, then streams
  datasets, fetches label values per dataset, converts `start` with
  `datetime.datetime.fromtimestamp(ds["start"] / 1000, datetime.UTC)`
  (line 229), buffers records, flushes every 10, flushes the remainder, and
  closes the connection (no try/finally: the close runs only if no exception
  escaped the loop).

HTTP responses are modelled as `Except Unit body`: `.error ()` is a
non-success status (where `raise_for_status()` raises), `.ok body` a decoded
success body.  Machine-level details that no claim touches are elided and
noted where they occur: the SERIAL surrogate id column, and IEEE-754 rounding
of `start / 1000` below microsecond granularity (the modelled inputs are
exact at microsecond granularity).
-/

/-! ### Timestamp conversion (line 229)

`datetime.datetime.fromtimestamp(t, datetime.UTC)` decomposes the POSIX
timestamp `t` by floor into days / seconds-of-day and converts the day count
to a proleptic-Gregorian civil date; the fractional second becomes the
`microsecond` field.  At line 229 `t = ds["start"] / 1000` where `/` is
Python 3 true division, so for an integer millisecond input `ms` the instant
is exactly `fdiv ms 1000` whole seconds plus `fmod ms 1000` milliseconds,
which `fromtimestamp` keeps as `(fmod ms 1000) * 1000` microseconds (such
inputs are exact at microsecond granularity, so float round-off is nil at the
microsecond field for the magnitudes handled here). -/

/-- A UTC civil timestamp as produced by `datetime.datetime.fromtimestamp`
with `tz=datetime.UTC`: proleptic-Gregorian date plus time of day plus
microseconds. -/
structure UTCTime where
  year : Int
  month : Nat
  day : Nat
  hour : Nat
  minute : Nat
  second : Nat
  microsecond : Nat
deriving DecidableEq

/-- Civil (proleptic-Gregorian) date from a count of days since 1970-01-01,
the standard era-based conversion used by C `gmtime` style implementations
and by CPython's `datetime`. -/
def civilFromDays (z : Int) : Int × Nat × Nat :=
  let zs : Int := z + 719468
  let era : Int := Int.fdiv zs 146097
  let doe : Nat := (Int.fmod zs 146097).toNat
  let yoe : Nat := (doe - doe / 1460 + doe / 36524 - doe / 146096) / 365
  let doy : Nat := doe - (365 * yoe + yoe / 4 - yoe / 100)
  let mp : Nat := (5 * doy + 2) / 153
  let d : Nat := doy - (153 * mp + 2) / 5 + 1
  let m : Nat := if mp < 10 then mp + 3 else mp - 9
  (era * 400 + (yoe : Int) + (if m ≤ 2 then 1 else 0), m, d)

/-- UTC civil timestamp from whole POSIX seconds plus a microsecond part. -/
def utcOfSeconds (s : Int) (usec : Nat) : UTCTime :=
  let days := Int.fdiv s 86400
  let sod : Nat := (Int.fmod s 86400).toNat
  let ymd := civilFromDays days
  ⟨ymd.1, ymd.2.1, ymd.2.2, sod / 3600, (sod % 3600) / 60, sod % 60, usec⟩

/-- Line 229: `datetime.datetime.fromtimestamp(ds["start"] / 1000, datetime.UTC)`.
Python `/` is true division, so the instant is `fdiv ms 1000` whole seconds
and the sub-second remainder `fmod ms 1000` milliseconds survives as the
`microsecond` field. -/
def upload_when (ms : Int) : UTCTime :=
  utcOfSeconds (Int.fdiv ms 1000) ((Int.fmod ms 1000).toNat * 1000)

/-- The conversion as the spec describes it: integer-divide the millisecond
value by 1000 (truncating the sub-second part) and apply standard epoch
conversion.  Kept separate from `upload_when` to compare the two. -/
def upload_when_claimed (ms : Int) : UTCTime :=
  utcOfSeconds (Int.fdiv ms 1000) 0

/-! ### The dataset-listing generator `_horreum_datasets` (lines 148–195)

The source of pages is a list `pages : List (Except Unit (List DS))`: entry
`k` is what the `k`-th page request (starting from `args.horreum_page`)
returns — `.error ()` for a non-success status, `.ok l` for a decoded page.
Requests past the end of the list return an empty page, which guarantees the
`while True:` loop terminates and makes the embedding total.  The generator's
result is `(yielded items, number of page requests issued, errored)`. -/

/-- A dataset summary as decoded from one element of the `"datasets"` array
of `GET /api/dataset/list/{testId}`: the fields the script reads. -/
structure DS where
  id : Int
  testId : Int
  runId : Int
  start : Int
deriving DecidableEq

/-- The inner `for ds in datasets:` loop (lines 182–189): yield each dataset,
increment `counter`, and return as soon as `counter >= count`.  Returns the
yielded items, the updated counter and whether the mid-page `return` ran. -/
def takePage : List DS → Nat → Int → List DS × Nat × Bool
  | [], counter, _ => ([], counter, false)
  | d :: ds, counter, count =>
    let c := counter + 1
    if (c : Int) ≥ count then ([d], c, true)
    else
      let r := takePage ds c count
      (d :: r.1, r.2.1, r.2.2)

/-- The `while True:` loop of `_horreum_datasets` (lines 163–195), fuelled by
the remaining pages.  Each iteration issues one request; a non-success status
raises before anything on that page is yielded; an empty page ends the loop
after the (fruitless) inner loop. -/
def horreum_datasets_go : List (Except Unit (List DS)) → Nat → Int → List DS × Nat × Bool
  | [], _, _ => ([], 1, false)
  | Except.error _ :: _, _, _ => ([], 1, true)
  | Except.ok p :: rest, counter, count =>
    let r := takePage p counter count
    if r.2.2 then (r.1, 1, false)
    else if p.length = 0 then (r.1, 1, false)
    else
      let r2 := horreum_datasets_go rest r.2.1 count
      (r.1 ++ r2.1, r2.2.1 + 1, r2.2.2)

/-- `Worker._horreum_datasets(base_url, test_id, count, page, limit)`:
`counter` starts at 0; `base_url`, `test_id`, `page` and `limit` only shape
the requests, which the page list already encodes. -/
def horreum_datasets (pages : List (Except Unit (List DS))) (count : Int) :
    List DS × Nat × Bool :=
  horreum_datasets_go pages 0 count

/-! ### Label values `_horreum_labelvalues` (lines 197–215) -/

/-- Python dict insertion for one `{name: value}` binding: overwrite the
binding for the key if present, else append it. -/
def dictInsert {V : Type} (m : List (String × V)) (k : String) (v : V) :
    List (String × V) :=
  if m.any (fun p => p.1 = k) then
    m.map (fun p => if p.1 = k then (k, v) else p)
  else m ++ [(k, v)]

/-- The dict comprehension `{i["name"]: i["value"] for i in response.json()}`
(line 215): left-to-right insertion, last write wins on duplicate names. -/
def dictOfPairs {V : Type} (l : List (String × V)) : List (String × V) :=
  l.foldl (fun m p => dictInsert m p.1 p.2) []

/-- `Worker._horreum_labelvalues(base_url, dataset_id)`: the response to
`GET /api/dataset/{dataset_id}/labelValues` is checked by
`raise_for_status()` before `response.json()` is read, so a non-success
status propagates and no mapping is built. -/
def horreum_labelvalues {V : Type} (resp : Except Unit (List (String × V))) :
    Except Unit (List (String × V)) :=
  match resp with
  | Except.error e => Except.error e
  | Except.ok l => Except.ok (dictOfPairs l)

/-! ### The store and `_db_insert` (lines 115–146)

A stored row is the record dict built at lines 233–239; the SERIAL surrogate
`id` column is elided (no claim mentions it — it is a fresh counter value per
inserted row and never consulted).  The store is the list of rows of table
`data` in insertion order. -/

/-- The record dict appended to `data_to_insert` (lines 233–239). -/
structure Rec (V : Type) where
  horreum_testid : Int
  horreum_runid : Int
  horreum_datasetid : Int
  start : UTCTime
  label_values : List (String × V)
deriving DecidableEq

/-- The natural key `(horreum_testid, horreum_runid, horreum_datasetid)` of
the UNIQUE constraint. -/
def keyOf {V : Type} (r : Rec V) : Int × Int × Int :=
  (r.horreum_testid, r.horreum_runid, r.horreum_datasetid)

/-- Effect of one `INSERT ... ON CONFLICT (...) DO NOTHING` statement on the
rows visible inside the transaction: append the row unless its natural key is
already present. -/
def insertRow {V : Type} (store : List (Rec V)) (r : Rec V) : List (Rec V) :=
  if store.any (fun w => keyOf w = keyOf r) then store else store ++ [r]

/-- Effect of the whole batch on the transaction-local rows: the statements
run in order, so a row inserted earlier in the batch blocks a later row with
the same natural key. -/
def applyBatch {V : Type} (store : List (Rec V)) (batch : List (Rec V)) :
    List (Rec V) :=
  batch.foldl insertRow store

/-- `psycopg2.extras.execute_batch(cur, query, values_list)` (line 143):
execute the statements in order inside the open transaction; `fail r = true`
means the statement for row `r` raises a database error (anything other than
the natural-key conflict, which `DO NOTHING` absorbs), aborting the call. -/
def exec_batch {V : Type} (fail : Rec V → Bool) :
    List (Rec V) → List (Rec V) → Except Unit (List (Rec V))
  | store, [] => Except.ok store
  | store, r :: rs =>
    if fail r then Except.error ()
    else exec_batch fail (insertRow store r) rs

/-- Outcome of one `_db_insert` call: the rows durably committed after the
call, how many `conn.commit()` calls ran, and whether the call raised. -/
structure InsertResult (V : Type) where
  committed : List (Rec V)
  commits : Nat
  err : Bool
deriving DecidableEq

/-- `Worker._db_insert(conn, data_list)`: run the batch, then `conn.commit()`
(line 145).  If any statement raises, the exception propagates before the
commit, so the transaction is never committed and the durable rows are the
pre-call rows; otherwise the batch commits as one transaction with exactly
one commit. -/
def db_insert {V : Type} (fail : Rec V → Bool) (committed : List (Rec V))
    (batch : List (Rec V)) : InsertResult V :=
  match exec_batch fail committed batch with
  | Except.error _ => ⟨committed, 0, true⟩
  | Except.ok s => ⟨s, 1, false⟩

/-! ### The pipeline `upload` (lines 217–248) -/

/-- Observable outcome of one `upload` run: the sizes of the `_db_insert`
calls in order, the committed rows, the largest size `data_to_insert` ever
reached, how many times `db_conn.close()` ran, and whether the run aborted
with an exception. -/
structure UploadResult (V : Type) where
  inserts : List Nat
  store : List (Rec V)
  maxBuf : Nat
  closes : Nat
  errored : Bool
deriving DecidableEq

/-- Build the record dict of lines 233–239 from a dataset summary and its
(already dict-shaped) label values. -/
def mkRec {V : Type} (ds : DS) (lvs : List (String × V)) : Rec V :=
  ⟨ds.testId, ds.runId, ds.id, upload_when ds.start, lvs⟩

/-- The `for ds in datasets_generator:` loop of `upload` (lines 226–248) over
the items the generator yields.  `lv i` is the labelValues response for
dataset id `i`; `genErr` records that the generator raises when pulled past
its last yielded item (its page fetches interleave with the loop body, but a
fetch error always surfaces exactly when the next item is pulled, i.e. after
every yielded item has been processed).  On any exception the function
returns at once: no final flush and no `db_conn.close()` run. -/
def upload_go {V : Type} (lv : Int → Except Unit (List (String × V)))
    (fail : Rec V → Bool) :
    List DS → Bool → List (Rec V) → List (Rec V) → List Nat → Nat → UploadResult V
  | [], genErr, buf, store, inserts, mb =>
    if genErr then ⟨inserts, store, mb, 0, true⟩
    else if buf.length > 0 then
      let r := db_insert fail store buf
      if r.err then ⟨inserts ++ [buf.length], r.committed, mb, 0, true⟩
      else ⟨inserts ++ [buf.length], r.committed, mb, 1, false⟩
    else ⟨inserts, store, mb, 1, false⟩
  | ds :: rest, genErr, buf, store, inserts, mb =>
    match lv ds.id with
    | Except.error _ => ⟨inserts, store, mb, 0, true⟩
    | Except.ok pairs =>
      let buf2 := buf ++ [mkRec ds (dictOfPairs pairs)]
      let mb2 := max mb buf2.length
      if buf2.length ≥ 10 then
        let r := db_insert fail store buf2
        if r.err then ⟨inserts ++ [buf2.length], r.committed, mb2, 0, true⟩
        else upload_go lv fail rest genErr [] r.committed (inserts ++ [buf2.length]) mb2
      else upload_go lv fail rest genErr buf2 store inserts mb2

/-- `Worker.upload(args)` for a connected store holding `store0`: stream the
generator's datasets, enrich, buffer, flush every 10, flush the remainder,
close.  The connection acquisition and `_db_table_init` (lines 220–221)
precede the loop and are not observable in these claims beyond the initial
store contents. -/
def upload {V : Type} (pages : List (Except Unit (List DS))) (count : Int)
    (lv : Int → Except Unit (List (String × V))) (fail : Rec V → Bool)
    (store0 : List (Rec V)) : UploadResult V :=
  let g := horreum_datasets pages count
  upload_go lv fail g.1 g.2.2 [] store0 [] 0

/-- Whether a store has pairwise-distinct natural keys — "no duplicate rows"
in the sense of the UNIQUE constraint. -/
def NodupKeys {V : Type} (store : List (Rec V)) : Prop :=
  (store.map keyOf).Nodup

/-- A sample dataset summary used by concrete witnesses. -/
def dsA : DS := ⟨5, 1, 2, 1700000000000⟩

/-- A sample record used by concrete witnesses. -/
def recA : Rec Int := mkRec dsA [("throughput", 42)]

example : upload_when 1700000000000 = ⟨2023, 11, 14, 22, 13, 20, 0⟩ := by decide

example : upload_when 1700000000500 = ⟨2023, 11, 14, 22, 13, 20, 500000⟩ := by decide

/-! ## C1 — timestamp conversion (line 229)

The spec says `start` is integer-divided by 1000 with the sub-second part
truncated.  Line 229 uses Python true division `ds["start"] / 1000`, so the
sub-second part is kept as microseconds; the two agree exactly on whole-second
inputs, which covers the spec's concrete instance `1700000000000 ms ↦
2023-11-14T22:13:20Z`. -/

/-- C1 (counterexample): at `start = 1700000000500` ms the code keeps the
half second as `microsecond = 500000`, so the conversion is not the
truncating one the claim describes. -/
theorem upload_when_not_truncated_at_half_second :
    upload_when 1700000000500 ≠ upload_when_claimed 1700000000500 ∧
    (upload_when 1700000000500).microsecond = 500000 := by
  decide

/-- C1 (amended): the record's start timestamp divides the epoch-millisecond
value by 1000 with true division, keeping the sub-second remainder as
microseconds; it agrees with the truncating conversion exactly on
whole-second inputs, and `1700000000000` ms converts to the UTC instant
2023-11-14T22:13:20Z. -/
theorem upload_when_true_division :
    (∀ ms : Int, Int.fmod ms 1000 = 0 → upload_when ms = upload_when_claimed ms) ∧
    (∀ ms : Int, (upload_when ms).microsecond = (Int.fmod ms 1000).toNat * 1000) ∧
    upload_when 1700000000000 = ⟨2023, 11, 14, 22, 13, 20, 0⟩ := by
  refine ⟨fun ms h => ?_, fun ms => rfl, by decide⟩
  simp [upload_when, upload_when_claimed, h]

/-- C1 (witness): the whole-second agreement applied at the spec's own
concrete input. -/
theorem upload_when_true_division_witness :
    Int.fmod 1700000000000 1000 = 0 ∧
    upload_when 1700000000000 = upload_when_claimed 1700000000000 :=
  ⟨by decide, upload_when_true_division.1 1700000000000 (by decide)⟩

/-! ## C7 — empty page terminates the listing -/

/-- C7: an empty page stops `_horreum_datasets` with no further requests; in
particular an empty first page yields zero items after exactly one request. -/
theorem horreum_datasets_empty_page_stops :
    (∀ rest count, horreum_datasets (Except.ok [] :: rest) count = ([], 1, false)) ∧
    (∀ rest counter count,
      horreum_datasets_go (Except.ok [] :: rest) counter count = ([], 1, false)) :=
  ⟨fun _ _ => rfl, fun _ _ _ => rfl⟩

/-! ## C8 — non-success HTTP status is fatal -/

/-- C8: a non-success status on a page-listing request stops the sequence at
once — nothing from the failing page is yielded and the error propagates —
and a non-success status on a labelValues request produces no mapping. -/
theorem http_error_fatal :
    (∀ rest counter count,
      horreum_datasets_go (Except.error () :: rest) counter count = ([], 1, true)) ∧
    (∀ (V : Type) (e : Unit),
      @horreum_labelvalues V (Except.error e) = Except.error e) :=
  ⟨fun _ _ _ => rfl, fun _ _ => rfl⟩

/-! ## C10 — `maxCount ≤ 0` still yields one item -/

/-- C10: the yielded-item count is compared to `count` only after a yield, so
with `count ≤ 0` and a non-empty first page the generator yields exactly the
first dataset, after exactly one page request. -/
theorem horreum_datasets_nonpos_count (d : DS) (ds : List DS)
    (rest : List (Except Unit (List DS))) (count : Int) (h : count ≤ 0) :
    horreum_datasets (Except.ok (d :: ds) :: rest) count = ([d], 1, false) := by
  have h1 : count ≤ 1 := by omega
  simp [horreum_datasets, horreum_datasets_go, takePage, h1]

/-- C10 (witness): the edge case at `count = 0` with a one-element page. -/
theorem horreum_datasets_nonpos_count_witness :
    (0 : Int) ≤ 0 ∧ horreum_datasets [Except.ok [dsA]] 0 = ([dsA], 1, false) :=
  ⟨le_refl 0, horreum_datasets_nonpos_count dsA [] [] 0 (le_refl 0)⟩

/-! ## C2 — bounded termination of the listing -/

/-- Unfolding equation for `takePage` on a non-empty page. -/
lemma takePage_cons (d : DS) (ds : List DS) (counter : Nat) (count : Int) :
    takePage (d :: ds) counter count =
      if ((counter + 1 : Nat) : Int) ≥ count then ([d], counter + 1, true)
      else (d :: (takePage ds (counter + 1) count).1,
            (takePage ds (counter + 1) count).2.1,
            (takePage ds (counter + 1) count).2.2) :=
  rfl

/-- Unfolding equation for the page loop on a successfully fetched page. -/
lemma horreum_datasets_go_cons_ok (p : List DS)
    (rest : List (Except Unit (List DS))) (counter : Nat) (count : Int) :
    horreum_datasets_go (Except.ok p :: rest) counter count =
      if (takePage p counter count).2.2 then ((takePage p counter count).1, 1, false)
      else if p.length = 0 then ((takePage p counter count).1, 1, false)
      else ((takePage p counter count).1
              ++ (horreum_datasets_go rest (takePage p counter count).2.1 count).1,
            (horreum_datasets_go rest (takePage p counter count).2.1 count).2.1 + 1,
            (horreum_datasets_go rest (takePage p counter count).2.1 count).2.2) :=
  rfl

/-- Inner-loop accounting: starting strictly below `count`, the final counter
is the initial counter plus the number of yielded items, and the loop either
returned mid-page with the counter exactly at `count`, or ran the page out
with the counter still strictly below `count`. -/
lemma takePage_spec (p : List DS) : ∀ (counter : Nat) (count : Int),
    (counter : Int) < count →
    ((takePage p counter count).2.1 : Int)
        = counter + (takePage p counter count).1.length ∧
    (((takePage p counter count).2.2 = true ∧
        ((takePage p counter count).2.1 : Int) = count) ∨
     ((takePage p counter count).2.2 = false ∧
        ((takePage p counter count).2.1 : Int) < count)) := by
  induction p with
  | nil =>
    intro counter count h
    refine ⟨?_, Or.inr ⟨?_, ?_⟩⟩
    · show ((counter : Int)) = counter + (([] : List DS).length : Int)
      simp
    · rfl
    · exact h
  | cons d ds ih =>
    intro counter count h
    by_cases hc : ((counter + 1 : Nat) : Int) ≥ count
    · have hcount : ((counter + 1 : Nat) : Int) = count := by push_cast at hc ⊢; omega
      rw [takePage_cons, if_pos hc]
      refine ⟨?_, Or.inl ⟨rfl, hcount⟩⟩
      show ((counter + 1 : Nat) : Int) = counter + (([d] : List DS).length : Int)
      simp
    · have hlt : ((counter + 1 : Nat) : Int) < count := by push_cast at hc ⊢; omega
      obtain ⟨ih1, ih2⟩ := ih (counter + 1) count hlt
      rw [takePage_cons, if_neg hc]
      constructor
      · show ((takePage ds (counter + 1) count).2.1 : Int)
            = counter + ((d :: (takePage ds (counter + 1) count).1).length : Int)
        push_cast at ih1 ⊢
        simp only [List.length_cons] at ih1 ⊢
        push_cast
        omega
      · exact ih2

/-- Outer-loop accounting: starting strictly below `count`, the generator
yields at most `count - counter` further items. -/
lemma horreum_datasets_go_len_le (pages : List (Except Unit (List DS))) :
    ∀ (counter : Nat) (count : Int), (counter : Int) < count →
    (counter : Int) + (horreum_datasets_go pages counter count).1.length ≤ count := by
  induction pages with
  | nil =>
    intro counter count h
    simp only [horreum_datasets_go, List.length_nil]
    omega
  | cons pg rest ih =>
    intro counter count h
    cases pg with
    | error e =>
      simp only [horreum_datasets_go, List.length_nil]
      omega
    | ok p =>
      rw [horreum_datasets_go_cons_ok]
      obtain ⟨hc, hst | hst⟩ := takePage_spec p counter count h
      · rw [hst.1, if_pos rfl]
        show (counter : Int) + ((takePage p counter count).1.length : Int) ≤ count
        have := hst.2
        omega
      · rw [hst.1]
        simp only [Bool.false_eq_true, if_false]
        by_cases hp : p.length = 0
        · rw [if_pos hp]
          have hpnil : p = [] := List.length_eq_zero.mp hp
          subst hpnil
          simp only [takePage, List.length_nil]
          omega
        · rw [if_neg hp]
          simp only [List.length_append]
          have h2 := ih (takePage p counter count).2.1 count hst.2
          omega

/-- Mid-page stop: if `1 ≤ k ≤ |p|` items bring the counter exactly to
`count`, the inner loop yields the first `k` items of the page and returns
mid-page. -/
lemma takePage_stops_at (p : List DS) : ∀ (k counter : Nat) (count : Int),
    1 ≤ k → k ≤ p.length → (counter : Int) + k = count →
    takePage p counter count = (p.take k, counter + k, true) := by
  induction p with
  | nil =>
    intro k counter count h1 h2 h3
    simp only [List.length_nil, Nat.le_zero] at h2
    omega
  | cons d ds ih =>
    intro k counter count h1 h2 h3
    obtain ⟨j, rfl⟩ : ∃ j, k = j + 1 := ⟨k - 1, by omega⟩
    cases j with
    | zero =>
      have hc : ((counter + 1 : Nat) : Int) ≥ count := by push_cast at h3 ⊢; omega
      rw [takePage_cons, if_pos hc]
      simp
    | succ i =>
      have hc : ¬ ((counter + 1 : Nat) : Int) ≥ count := by push_cast at h3 ⊢; omega
      have hrec := ih (i + 1) (counter + 1) count (by omega)
        (by simp only [List.length_cons] at h2; omega)
        (by push_cast at h3 ⊢; omega)
      rw [takePage_cons, if_neg hc, hrec]
      have harith : counter + 1 + (i + 1) = counter + (i + 1 + 1) := by omega
      rw [harith]
      simp [List.take_succ_cons]

/-- C2 (amended): for every positive `maxCount` the generator yields at most
`maxCount` items, and in the spec's concrete scenario — `maxCount = 5`,
pages of 10 — it yields exactly the first five datasets of the first page
and issues exactly one page request. -/
theorem horreum_datasets_bounded :
    (∀ (pages : List (Except Unit (List DS))) (count : Int), 1 ≤ count →
      ((horreum_datasets pages count).1.length : Int) ≤ count) ∧
    (∀ p1 p2 p3 : List DS, p1.length = 10 → p2.length = 10 → p3.length = 10 →
      horreum_datasets [Except.ok p1, Except.ok p2, Except.ok p3] 5
        = (p1.take 5, 1, false)) := by
  constructor
  · intro pages count h
    have := horreum_datasets_go_len_le pages 0 count (by omega)
    simpa using this
  · intro p1 p2 p3 h1 h2 h3
    have ht : takePage p1 0 5 = (p1.take 5, 0 + 5, true) :=
      takePage_stops_at p1 5 0 5 (by omega) (by omega) (by simp)
    simp [horreum_datasets, horreum_datasets_go, ht]

/-- C2 (counterexample): with `maxCount = 0` — the claim says "any maxCount"
— a non-empty first page still yields one item, so "at most maxCount items"
fails. -/
theorem horreum_datasets_count_zero_exceeds :
    ¬ (((horreum_datasets [Except.ok [dsA]] 0).1.length : Int) ≤ 0) := by
  decide

/-- C2 (witness): both parts applied at concrete inputs. -/
theorem horreum_datasets_bounded_witness :
    (1 : Int) ≤ 1 ∧
    ((horreum_datasets [Except.ok [dsA]] 1).1.length : Int) ≤ 1 ∧
    (List.replicate 10 dsA).length = 10 ∧
    horreum_datasets
        [Except.ok (List.replicate 10 dsA), Except.ok (List.replicate 10 dsA),
         Except.ok (List.replicate 10 dsA)] 5
      = ((List.replicate 10 dsA).take 5, 1, false) :=
  ⟨le_refl 1,
   horreum_datasets_bounded.1 [Except.ok [dsA]] 1 (le_refl 1),
   by decide,
   horreum_datasets_bounded.2 _ _ _ (by decide) (by decide) (by decide)⟩

/-! ## The batched insert: shared lemmas for C3 and C6 -/

/-- Unfolding equation: the batch statements run left to right. -/
lemma applyBatch_cons {V : Type} (s : List (Rec V)) (r : Rec V) (rs : List (Rec V)) :
    applyBatch s (r :: rs) = applyBatch (insertRow s r) rs :=
  rfl

/-- `execute_batch` raises exactly when some statement of the batch fails. -/
lemma exec_batch_error_iff {V : Type} (fail : Rec V → Bool) (batch : List (Rec V)) :
    ∀ store, (∃ e, exec_batch fail store batch = Except.error e) ↔ batch.any fail = true := by
  induction batch with
  | nil =>
    intro store
    simp [exec_batch]
  | cons r rs ih =>
    intro store
    by_cases hr : fail r = true
    · simp [exec_batch, hr]
    · simp only [Bool.not_eq_true] at hr
      simp [exec_batch, hr, ih (insertRow store r)]

/-- If no statement fails, `execute_batch` applies the whole batch in order,
skipping natural-key conflicts. -/
lemma exec_batch_ok {V : Type} (fail : Rec V → Bool) (batch : List (Rec V)) :
    ∀ store, batch.any fail = false →
    exec_batch fail store batch = Except.ok (applyBatch store batch) := by
  induction batch with
  | nil =>
    intro store _
    rfl
  | cons r rs ih =>
    intro store h
    simp only [List.any_cons, Bool.or_eq_false_iff] at h
    simp only [exec_batch, h.1, Bool.false_eq_true, if_false, applyBatch_cons]
    exact ih (insertRow store r) h.2

/-- A failure-free `_db_insert` call: the batch fully applies and exactly one
commit runs. -/
lemma db_insert_ok {V : Type} (fail : Rec V → Bool) (store batch : List (Rec V))
    (h : batch.any fail = false) :
    db_insert fail store batch = ⟨applyBatch store batch, 1, false⟩ := by
  simp [db_insert, exec_batch_ok fail batch store h]

/-- A failing `_db_insert` call: the exception propagates before the commit,
so nothing in the batch is committed. -/
lemma db_insert_error {V : Type} (fail : Rec V → Bool) (store batch : List (Rec V))
    (h : batch.any fail = true) :
    db_insert fail store batch = ⟨store, 0, true⟩ := by
  obtain ⟨e, he⟩ := (exec_batch_error_iff fail batch store).mpr h
  simp [db_insert, he]

/-- Inserting a row only ever extends the set of stored natural keys. -/
lemma insertRow_keys_superset {V : Type} (s : List (Rec V)) (r : Rec V)
    (k : Int × Int × Int) (h : k ∈ s.map keyOf) : k ∈ (insertRow s r).map keyOf := by
  unfold insertRow
  split
  · exact h
  · simp only [List.map_append, List.map_cons, List.map_nil]
    exact List.mem_append_left _ h

/-- After inserting a row its natural key is stored (whether the row was
appended or skipped as a conflict). -/
lemma keyOf_mem_insertRow {V : Type} (s : List (Rec V)) (r : Rec V) :
    keyOf r ∈ (insertRow s r).map keyOf := by
  unfold insertRow
  split
  · next h =>
    simp only [List.any_eq_true, decide_eq_true_eq] at h
    obtain ⟨w, hw, he⟩ := h
    exact List.mem_map.mpr ⟨w, hw, he⟩
  · simp

/-- Applying a batch only ever extends the set of stored natural keys. -/
lemma applyBatch_keys_superset {V : Type} (batch : List (Rec V)) :
    ∀ (s : List (Rec V)) (k : Int × Int × Int),
    k ∈ s.map keyOf → k ∈ (applyBatch s batch).map keyOf := by
  induction batch with
  | nil => exact fun s k h => h
  | cons r rs ih =>
    intro s k h
    rw [applyBatch_cons]
    exact ih (insertRow s r) k (insertRow_keys_superset s r k h)

/-- After a batch is applied, every natural key of the batch is stored. -/
lemma batch_keys_in_applyBatch {V : Type} (batch : List (Rec V)) :
    ∀ (s : List (Rec V)) (r : Rec V), r ∈ batch →
    keyOf r ∈ (applyBatch s batch).map keyOf := by
  induction batch with
  | nil =>
    intro s r h
    exact absurd h (List.not_mem_nil r)
  | cons b bs ih =>
    intro s r h
    rcases List.mem_cons.mp h with rfl | hmem
    · rw [applyBatch_cons]
      exact applyBatch_keys_superset bs (insertRow s r) _ (keyOf_mem_insertRow s r)
    · rw [applyBatch_cons]
      exact ih (insertRow s b) r hmem

/-- A batch all of whose natural keys are already stored is a no-op: every
statement hits the DO NOTHING clause. -/
lemma applyBatch_eq_self {V : Type} (batch : List (Rec V)) :
    ∀ s : List (Rec V), (∀ r ∈ batch, keyOf r ∈ s.map keyOf) → applyBatch s batch = s := by
  induction batch with
  | nil => exact fun s _ => rfl
  | cons b bs ih =>
    intro s h
    have hb : keyOf b ∈ s.map keyOf := h b (List.mem_cons_self b bs)
    have hins : insertRow s b = s := by
      unfold insertRow
      rw [if_pos]
      simp only [List.any_eq_true, decide_eq_true_eq]
      exact List.mem_map.mp hb
    rw [applyBatch_cons, hins]
    exact ih s (fun r hr => h r (List.mem_cons_of_mem b hr))

/-- Inserting a row preserves distinctness of the stored natural keys. -/
lemma insertRow_nodupKeys {V : Type} (s : List (Rec V)) (r : Rec V)
    (h : NodupKeys s) : NodupKeys (insertRow s r) := by
  unfold insertRow
  split
  · exact h
  · next hc =>
    have hnot : keyOf r ∉ s.map keyOf := by
      intro hmem
      obtain ⟨w, hw, he⟩ := List.mem_map.mp hmem
      exact hc (by simp only [List.any_eq_true, decide_eq_true_eq]; exact ⟨w, hw, he⟩)
    unfold NodupKeys at *
    simp only [List.map_append, List.map_cons, List.map_nil]
    rw [List.nodup_append]
    refine ⟨h, List.nodup_singleton _, ?_⟩
    intro k hk hk2
    rw [List.mem_singleton] at hk2
    subst hk2
    exact hnot hk

/-- Applying a batch preserves distinctness of the stored natural keys. -/
lemma applyBatch_nodupKeys {V : Type} (batch : List (Rec V)) :
    ∀ s : List (Rec V), NodupKeys s → NodupKeys (applyBatch s batch) := by
  induction batch with
  | nil => exact fun s h => h
  | cons b bs ih =>
    intro s h
    rw [applyBatch_cons]
    exact ih (insertRow s b) (insertRow_nodupKeys s b h)

/-- Whatever `_db_insert` commits has distinct natural keys if the store had
them. -/
lemma db_insert_nodupKeys {V : Type} (fail : Rec V → Bool) (store batch : List (Rec V))
    (h : NodupKeys store) : NodupKeys (db_insert fail store batch).committed := by
  unfold db_insert
  cases he : exec_batch fail store batch with
  | error e => exact h
  | ok s =>
    by_cases ha : batch.any fail = true
    · obtain ⟨e, he2⟩ := (exec_batch_error_iff fail batch store).mpr ha
      rw [he2] at he
      cases he
    · have := exec_batch_ok fail batch store (by simpa using ha)
      rw [this] at he
      cases he
      exact applyBatch_nodupKeys batch store h

/-- The pipeline loop touches the store only through `_db_insert`, so the
stored natural keys stay pairwise distinct throughout a run, whatever the
generator, label-value responses and statement failures do. -/
lemma upload_go_nodupKeys {V : Type} (lv : Int → Except Unit (List (String × V)))
    (fail : Rec V → Bool) (dsl : List DS) :
    ∀ (ge : Bool) (buf store : List (Rec V)) (ins : List Nat) (mb : Nat),
    NodupKeys store → NodupKeys (upload_go lv fail dsl ge buf store ins mb).store := by
  induction dsl with
  | nil =>
    intro ge buf store ins mb h
    cases ge with
    | true => exact h
    | false =>
      by_cases hb : buf.length > 0
      · by_cases he : (db_insert fail store buf).err
        · simp only [upload_go, Bool.false_eq_true, if_false, hb, if_true, he]
          exact db_insert_nodupKeys fail store buf h
        · simp only [upload_go, Bool.false_eq_true, if_false, hb, if_true, he]
          exact db_insert_nodupKeys fail store buf h
      · simp only [upload_go, Bool.false_eq_true, if_false, hb]
        exact h
  | cons d rest ih =>
    intro ge buf store ins mb h
    cases hlv : lv d.id with
    | error e =>
      simp only [upload_go, hlv]
      exact h
    | ok pairs =>
      by_cases hflush : (buf ++ [mkRec d (dictOfPairs pairs)]).length ≥ 10
      · by_cases he : (db_insert fail store (buf ++ [mkRec d (dictOfPairs pairs)])).err
        · simp only [upload_go, hlv, hflush, if_true, he]
          exact db_insert_nodupKeys fail store _ h
        · simp only [upload_go, hlv, hflush, if_true, he, Bool.false_eq_true, if_false]
          exact ih ge [] _ _ _ (db_insert_nodupKeys fail store _ h)
      · simp only [upload_go, hlv, hflush, if_false]
        exact ih ge _ store _ _ h

/-! ## C6 — one commit per call, all-or-nothing -/

/-- C6: a `_db_insert` call raises exactly when some statement of the batch
fails; a failure-free call applies the whole batch (conflicts skipped) and
commits exactly once; a failing call commits nothing — the durable rows are
exactly the pre-call rows and zero commits run. -/
theorem db_insert_all_or_nothing (V : Type) (fail : Rec V → Bool)
    (store batch : List (Rec V)) :
    ((db_insert fail store batch).err = batch.any fail) ∧
    (batch.any fail = false →
      db_insert fail store batch = ⟨applyBatch store batch, 1, false⟩) ∧
    (batch.any fail = true →
      db_insert fail store batch = ⟨store, 0, true⟩) := by
  refine ⟨?_, db_insert_ok fail store batch, db_insert_error fail store batch⟩
  by_cases h : batch.any fail = true
  · rw [db_insert_error fail store batch h, h]
  · have h0 : batch.any fail = false := by simpa using h
    rw [db_insert_ok fail store batch h0, h0]

/-- C6 (witness): a concrete failure-free call commits once and applies the
batch, and a concrete failing call commits nothing. -/
theorem db_insert_all_or_nothing_witness :
    db_insert (fun _ => false) [] [recA] = ⟨applyBatch [] [recA], 1, false⟩ ∧
    db_insert (fun _ => true) [] [recA] = ⟨[], 0, true⟩ :=
  ⟨(db_insert_all_or_nothing Int (fun _ => false) [] [recA]).2.1 (by decide),
   (db_insert_all_or_nothing Int (fun _ => true) [] [recA]).2.2 (by decide)⟩

/-! ## C3 — idempotence / no duplicate rows -/

/-- C3: re-running `_db_insert` with a record set whose rows are already
stored raises nothing, commits once, and leaves the stored rows — hence the
row count — unchanged; and across a whole `upload` run the stored natural
keys stay pairwise distinct, so re-running the pipeline creates no duplicate
rows. -/
theorem db_insert_rerun_no_duplicates (V : Type) :
    (∀ store batch : List (Rec V),
      db_insert (fun _ => false)
          (db_insert (fun _ => false) store batch).committed batch
        = ⟨(db_insert (fun _ => false) store batch).committed, 1, false⟩) ∧
    (∀ (pages : List (Except Unit (List DS))) (count : Int)
        (lv : Int → Except Unit (List (String × V))) (fail : Rec V → Bool)
        (store0 : List (Rec V)), NodupKeys store0 →
      NodupKeys (upload pages count lv fail store0).store) := by
  constructor
  · intro store batch
    have hfirst := db_insert_ok (fun _ : Rec V => false) store batch (by simp)
    rw [hfirst]
    have hsecond := db_insert_ok (fun _ : Rec V => false) (applyBatch store batch) batch (by simp)
    rw [hsecond]
    have : applyBatch (applyBatch store batch) batch = applyBatch store batch :=
      applyBatch_eq_self batch (applyBatch store batch)
        (fun r hr => batch_keys_in_applyBatch batch store r hr)
    rw [this]
  · intro pages count lv fail store0 h0
    exact upload_go_nodupKeys lv fail (horreum_datasets pages count).1
      (horreum_datasets pages count).2.2 [] store0 [] 0 h0

/-- C3 (witness): the idempotence and key-distinctness applied at concrete
inputs — a singleton batch re-inserted, and a run over one one-dataset page
starting from an empty store. -/
theorem db_insert_rerun_no_duplicates_witness :
    NodupKeys ([] : List (Rec Int)) ∧
    db_insert (fun _ => false) (db_insert (fun _ => false) [] [recA]).committed [recA]
      = ⟨(db_insert (fun _ => false) [] [recA]).committed, 1, false⟩ ∧
    NodupKeys ((upload [Except.ok [dsA]] 100 (fun _ => Except.ok [("a", (1 : Int))])
        (fun _ => false) []).store) :=
  ⟨by simp [NodupKeys],
   (db_insert_rerun_no_duplicates Int).1 [] [recA],
   (db_insert_rerun_no_duplicates Int).2 [Except.ok [dsA]] 100
     (fun _ => Except.ok [("a", (1 : Int))]) (fun _ => false) [] (by simp [NodupKeys])⟩

/-! ## C4 — connection release

`upload` has no try/finally: `db_conn.close()` (line 248) is the last
statement of the happy path, so an exception anywhere in the loop, in a
flush, or in the final flush skips it. -/

/-- The loop closes the connection exactly once when it completes and never
when it aborts with an exception. -/
lemma upload_go_closes {V : Type} (lv : Int → Except Unit (List (String × V)))
    (fail : Rec V → Bool) (dsl : List DS) :
    ∀ (ge : Bool) (buf store : List (Rec V)) (ins : List Nat) (mb : Nat),
    (upload_go lv fail dsl ge buf store ins mb).closes
      = if (upload_go lv fail dsl ge buf store ins mb).errored then 0 else 1 := by
  induction dsl with
  | nil =>
    intro ge buf store ins mb
    cases ge with
    | true => rfl
    | false =>
      by_cases hb : buf.length > 0
      · by_cases he : (db_insert fail store buf).err
        · simp [upload_go, hb, he]
        · simp [upload_go, hb, he]
      · simp [upload_go, hb]
  | cons d rest ih =>
    intro ge buf store ins mb
    cases hlv : lv d.id with
    | error e => simp [upload_go, hlv]
    | ok pairs =>
      simp only [upload_go, hlv]
      by_cases hflush : (buf ++ [mkRec d (dictOfPairs pairs)]).length ≥ 10
      · rw [if_pos hflush]
        by_cases he : (db_insert fail store (buf ++ [mkRec d (dictOfPairs pairs)])).err = true
        · rw [if_pos he]
          rfl
        · rw [if_neg he]
          exact ih ge [] _ _ _
      · rw [if_neg hflush]
        exact ih ge _ store _ _

/-- C4 (counterexample): a run aborted by a failing labelValues request never
executes `db_conn.close()` — the claim that the connection is closed also
when the run ends in Error fails. -/
theorem upload_error_skips_close :
    (upload [Except.ok [dsA]] 100
        (fun _ => (Except.error () : Except Unit (List (String × Int))))
        (fun _ => false) []).errored = true ∧
    (upload [Except.ok [dsA]] 100
        (fun _ => (Except.error () : Except Unit (List (String × Int))))
        (fun _ => false) []).closes = 0 := by
  decide

/-- C4 (amended): the destination connection is acquired once at the start of
the run and `db_conn.close()` runs exactly once when the run completes
normally; on any aborting error (transport, decode or persistence) the close
is skipped — the connection is then released only by process termination. -/
theorem upload_closes_on_success_only (V : Type)
    (pages : List (Except Unit (List DS))) (count : Int)
    (lv : Int → Except Unit (List (String × V))) (fail : Rec V → Bool)
    (store0 : List (Rec V)) :
    (upload pages count lv fail store0).closes
      = if (upload pages count lv fail store0).errored then 0 else 1 :=
  upload_go_closes lv fail (horreum_datasets pages count).1
    (horreum_datasets pages count).2.2 [] store0 [] 0

/-! ## C5 — batch flush boundaries -/

/-- On an error-free run starting with at most 9 buffered records, the sizes
of the `_db_insert` calls are full batches of 10 followed by the remainder of
the total record count, if any. -/
lemma upload_go_clean_inserts {V : Type} (lvf : Int → List (String × V)) (dsl : List DS) :
    ∀ (buf store : List (Rec V)) (ins : List Nat) (mb : Nat), buf.length ≤ 9 →
    (upload_go (fun i => Except.ok (lvf i)) (fun _ => false) dsl false buf store ins mb).inserts
      = ins ++ List.replicate ((buf.length + dsl.length) / 10) 10
            ++ (if (buf.length + dsl.length) % 10 = 0 then []
                else [(buf.length + dsl.length) % 10]) := by
  induction dsl with
  | nil =>
    intro buf store ins mb h
    simp only [List.length_nil, Nat.add_zero]
    by_cases hb : buf.length = 0
    · rw [(by omega : buf.length / 10 = 0), if_pos (by omega : buf.length % 10 = 0)]
      simp only [upload_go, Bool.false_eq_true, if_false]
      rw [if_neg (by omega : ¬ buf.length > 0)]
      simp
    · rw [(by omega : buf.length / 10 = 0), if_neg (by omega : ¬ buf.length % 10 = 0),
        (by omega : buf.length % 10 = buf.length)]
      have hr := db_insert_ok (fun _ : Rec V => false) store buf (by simp)
      simp only [upload_go, Bool.false_eq_true, if_false]
      rw [if_pos (by omega : buf.length > 0), hr]
      simp
  | cons d rest ih =>
    intro buf store ins mb h
    simp only [upload_go, List.length_cons]
    by_cases hflush : (buf ++ [mkRec d (dictOfPairs (lvf d.id))]).length ≥ 10
    · have h9 : buf.length = 9 := by
        simp only [List.length_append, List.length_cons, List.length_nil] at hflush
        omega
      have hr := db_insert_ok (fun _ : Rec V => false) store
        (buf ++ [mkRec d (dictOfPairs (lvf d.id))]) (by simp)
      rw [if_pos hflush, hr]
      simp only [Bool.false_eq_true, if_false]
      rw [ih [] _ _ _ (by simp)]
      have hlen : (buf ++ [mkRec d (dictOfPairs (lvf d.id))]).length = 10 := by
        simp [h9]
      rw [hlen, h9]
      simp only [List.length_nil, Nat.zero_add]
      rw [(by omega : 9 + (rest.length + 1) = rest.length + 10),
        Nat.add_div_right rest.length (by omega),
        Nat.add_mod_right rest.length 10, List.replicate_succ]
      simp [List.append_assoc]
    · have hle : (buf ++ [mkRec d (dictOfPairs (lvf d.id))]).length ≤ 9 := by
        simp only [List.length_append, List.length_cons, List.length_nil] at hflush ⊢
        omega
      rw [if_neg hflush, ih _ _ _ _ hle]
      rw [(by simp only [List.length_append, List.length_cons, List.length_nil]; omega :
          (buf ++ [mkRec d (dictOfPairs (lvf d.id))]).length + rest.length
            = buf.length + (rest.length + 1))]

/-- C5: on an error-free run, the `_db_insert` call sizes are exactly
`n / 10` full batches of 10 followed by one final partial batch of `n % 10`
when `n % 10 ≠ 0` and nothing otherwise (`n` the number of streamed records);
in particular streaming exactly 23 records produces exactly the three calls
`[10, 10, 3]`. -/
theorem upload_flush_pattern (V : Type) (lvf : Int → List (String × V))
    (store0 : List (Rec V)) :
    (∀ dsl : List DS,
      (upload_go (fun i => Except.ok (lvf i)) (fun _ => false) dsl false [] store0 [] 0).inserts
        = List.replicate (dsl.length / 10) 10
            ++ (if dsl.length % 10 = 0 then [] else [dsl.length % 10])) ∧
    (∀ dsl : List DS, dsl.length = 23 →
      (upload_go (fun i => Except.ok (lvf i)) (fun _ => false) dsl false [] store0 [] 0).inserts
        = [10, 10, 3]) := by
  have base : ∀ dsl : List DS,
      (upload_go (fun i => Except.ok (lvf i)) (fun _ => false) dsl false [] store0 [] 0).inserts
        = List.replicate (dsl.length / 10) 10
            ++ (if dsl.length % 10 = 0 then [] else [dsl.length % 10]) := by
    intro dsl
    have := upload_go_clean_inserts lvf dsl [] store0 [] 0 (by simp)
    simpa using this
  refine ⟨base, fun dsl h => ?_⟩
  rw [base dsl, h]
  rfl

/-- C5 (witness): the flush pattern applied to a concrete stream of 23
records. -/
theorem upload_flush_pattern_witness :
    (List.replicate 23 dsA).length = 23 ∧
    (upload_go (fun i => Except.ok ((fun _ => ([] : List (String × Int))) i))
        (fun _ => false) (List.replicate 23 dsA) false [] [] [] 0).inserts
      = [10, 10, 3] :=
  ⟨by simp,
   (upload_flush_pattern Int (fun _ => []) []).2 (List.replicate 23 dsA) (by simp)⟩

/-! ## C9 — buffer and batch-size invariant -/

/-- Whatever the generator, label-value responses and statement failures do,
if the loop starts with at most 9 buffered records then the buffer peaks at
10 at most, and the `_db_insert` call sizes are some number of full batches
of 10 possibly followed by one final partial batch of 1 to 9 records. -/
lemma upload_go_insert_shape {V : Type} (lv : Int → Except Unit (List (String × V)))
    (fail : Rec V → Bool) (dsl : List DS) :
    ∀ (ge : Bool) (buf store : List (Rec V)) (ins : List Nat) (mb : Nat),
    buf.length ≤ 9 →
    (upload_go lv fail dsl ge buf store ins mb).maxBuf ≤ max mb 10 ∧
    ∃ k t, (upload_go lv fail dsl ge buf store ins mb).inserts
        = ins ++ (List.replicate k 10 ++ t) ∧
      (t = [] ∨ ∃ v, t = [v] ∧ 1 ≤ v ∧ v ≤ 9) := by
  induction dsl with
  | nil =>
    intro ge buf store ins mb h
    cases ge with
    | true => exact ⟨le_max_left mb 10, 0, [], by simp [upload_go], Or.inl rfl⟩
    | false =>
      by_cases hb : buf.length > 0
      · simp only [upload_go, Bool.false_eq_true, if_false]
        rw [if_pos hb]
        by_cases he : (db_insert fail store buf).err = true
        · rw [if_pos he]
          exact ⟨le_max_left mb 10, 0, [buf.length], by simp,
            Or.inr ⟨buf.length, rfl, by omega, by omega⟩⟩
        · rw [if_neg he]
          exact ⟨le_max_left mb 10, 0, [buf.length], by simp,
            Or.inr ⟨buf.length, rfl, by omega, by omega⟩⟩
      · simp only [upload_go, Bool.false_eq_true, if_false]
        rw [if_neg hb]
        exact ⟨le_max_left mb 10, 0, [], by simp, Or.inl rfl⟩
  | cons d rest ih =>
    intro ge buf store ins mb h
    cases hlv : lv d.id with
    | error e =>
      simp only [upload_go, hlv]
      exact ⟨le_max_left mb 10, 0, [], by simp, Or.inl rfl⟩
    | ok pairs =>
      simp only [upload_go, hlv]
      by_cases hflush : (buf ++ [mkRec d (dictOfPairs pairs)]).length ≥ 10
      · have hlen : (buf ++ [mkRec d (dictOfPairs pairs)]).length = 10 := by
          simp only [List.length_append, List.length_cons, List.length_nil] at hflush ⊢
          omega
        rw [if_pos hflush]
        by_cases he : (db_insert fail store (buf ++ [mkRec d (dictOfPairs pairs)])).err = true
        · rw [if_pos he]
          refine ⟨?_, 1, [], ?_, Or.inl rfl⟩
          · simp [hlen]
          · simp [hlen]
        · rw [if_neg he, hlen]
          obtain ⟨hm, k, t, hins, hshape⟩ := ih ge [] _ (ins ++ [10]) (max mb 10) (by simp)
          refine ⟨?_, k + 1, t, ?_, hshape⟩
          · refine hm.trans (le_of_eq ?_)
            rw [max_assoc]
            simp
          · rw [hins]
            simp [List.replicate_succ, List.append_assoc]
      · rw [if_neg hflush]
        have hle : (buf ++ [mkRec d (dictOfPairs pairs)]).length ≤ 9 := by
          simp only [List.length_append, List.length_cons, List.length_nil] at hflush ⊢
          omega
        obtain ⟨hm, k, t, hins, hshape⟩ := ih ge _ store ins
          (max mb (buf ++ [mkRec d (dictOfPairs pairs)]).length) hle
        refine ⟨?_, k, t, hins, hshape⟩
        refine hm.trans (le_of_eq ?_)
        rw [max_assoc, max_eq_right (by omega : (buf ++ [mkRec d (dictOfPairs pairs)]).length ≤ 10)]

/-- C9: over any run of the pipeline loop, the in-memory buffer never holds
more than 10 records, and the `_db_insert` call sizes are full batches of 10
possibly followed by one final partial batch of 1 to 9 records — in
particular every call receives a non-empty list. -/
theorem upload_batch_invariant (V : Type) (pages : List (Except Unit (List DS)))
    (count : Int) (lv : Int → Except Unit (List (String × V))) (fail : Rec V → Bool)
    (store0 : List (Rec V)) :
    (upload pages count lv fail store0).maxBuf ≤ 10 ∧
    ∃ k t, (upload pages count lv fail store0).inserts = List.replicate k 10 ++ t ∧
      (t = [] ∨ ∃ v, t = [v] ∧ 1 ≤ v ∧ v ≤ 9) := by
  obtain ⟨hm, k, t, hins, hshape⟩ := upload_go_insert_shape lv fail
    (horreum_datasets pages count).1 (horreum_datasets pages count).2.2
    [] store0 [] 0 (by simp)
  exact ⟨hm.trans (le_of_eq (max_eq_right (by omega))), k, t, by simpa using hins, hshape⟩
